import Mathlib

/-!
Shallow embedding of jquery.mvc.js (a path-addressable hierarchical model
store with bindings and change notification) and proofs about its
path resolver, get/set/delete engine, binding registry and dispatcher.

JavaScript values are modelled by the inductive type `JVal`; the single
global store `$.model` is a `JVal` threaded explicitly through every
operation.  Operations that can throw a `TypeError` in the source return
`Except Unit`.  Property reads on primitives yield `undefined` and
property writes on primitives are lost, matching non-strict JavaScript
on unboxed values; transient wrapper objects are not modelled, and the
claims proved below restrict themselves to container-shaped stores where
that distinction cannot be observed.
-/

/-- Model of a JavaScript value as stored in the model tree: `undefined` is the
JavaScript value `undefined`, `obj` a plain object given by its ordered own
fields, and `arr` an array given by its ordered elements together with any
non-index expando properties. -/
inductive JVal where
  | undefined
  | jnull
  | bool (b : Bool)
  | num (n : Int)
  | str (s : String)
  | obj (fields : List (String × JVal))
  | arr (elems : List JVal) (props : List (String × JVal))
  deriving Repr

mutual

/-- Structural boolean equality on `JVal`, used to decide `parent[prop] !== value`. -/
def JVal.beq : JVal → JVal → Bool
  | .undefined, .undefined => true
  | .jnull, .jnull => true
  | .bool a, .bool b => a == b
  | .num a, .num b => a == b
  | .str a, .str b => a == b
  | .obj fs, .obj gs => beqFields fs gs
  | .arr es ps, .arr fs qs => beqElems es fs && beqFields ps qs
  | _, _ => false

/-- Pointwise `JVal.beq` on element lists. -/
def beqElems : List JVal → List JVal → Bool
  | [], [] => true
  | a :: as, b :: bs => JVal.beq a b && beqElems as bs
  | _, _ => false

/-- Pointwise `JVal.beq` on field lists. -/
def beqFields : List (String × JVal) → List (String × JVal) → Bool
  | [], [] => true
  | (k, a) :: as, (l, b) :: bs => k == l && JVal.beq a b && beqFields as bs
  | _, _ => false

end

mutual

theorem JVal.beq_iff : ∀ a b : JVal, JVal.beq a b = true ↔ a = b
  | .undefined, .undefined => by simp [JVal.beq]
  | .jnull, .jnull => by simp [JVal.beq]
  | .bool _, .bool _ => by simp [JVal.beq]
  | .num _, .num _ => by simp [JVal.beq]
  | .str _, .str _ => by simp [JVal.beq]
  | .obj fs, .obj gs => by
      simp [JVal.beq, beqFields_iff fs gs]
  | .arr es ps, .arr fs qs => by
      simp [JVal.beq, beqElems_iff es fs, beqFields_iff ps qs]
  | .undefined, .jnull => by simp [JVal.beq]
  | .undefined, .bool _ => by simp [JVal.beq]
  | .undefined, .num _ => by simp [JVal.beq]
  | .undefined, .str _ => by simp [JVal.beq]
  | .undefined, .obj _ => by simp [JVal.beq]
  | .undefined, .arr _ _ => by simp [JVal.beq]
  | .jnull, .undefined => by simp [JVal.beq]
  | .jnull, .bool _ => by simp [JVal.beq]
  | .jnull, .num _ => by simp [JVal.beq]
  | .jnull, .str _ => by simp [JVal.beq]
  | .jnull, .obj _ => by simp [JVal.beq]
  | .jnull, .arr _ _ => by simp [JVal.beq]
  | .bool _, .undefined => by simp [JVal.beq]
  | .bool _, .jnull => by simp [JVal.beq]
  | .bool _, .num _ => by simp [JVal.beq]
  | .bool _, .str _ => by simp [JVal.beq]
  | .bool _, .obj _ => by simp [JVal.beq]
  | .bool _, .arr _ _ => by simp [JVal.beq]
  | .num _, .undefined => by simp [JVal.beq]
  | .num _, .jnull => by simp [JVal.beq]
  | .num _, .bool _ => by simp [JVal.beq]
  | .num _, .str _ => by simp [JVal.beq]
  | .num _, .obj _ => by simp [JVal.beq]
  | .num _, .arr _ _ => by simp [JVal.beq]
  | .str _, .undefined => by simp [JVal.beq]
  | .str _, .jnull => by simp [JVal.beq]
  | .str _, .bool _ => by simp [JVal.beq]
  | .str _, .num _ => by simp [JVal.beq]
  | .str _, .obj _ => by simp [JVal.beq]
  | .str _, .arr _ _ => by simp [JVal.beq]
  | .obj _, .undefined => by simp [JVal.beq]
  | .obj _, .jnull => by simp [JVal.beq]
  | .obj _, .bool _ => by simp [JVal.beq]
  | .obj _, .num _ => by simp [JVal.beq]
  | .obj _, .str _ => by simp [JVal.beq]
  | .obj _, .arr _ _ => by simp [JVal.beq]
  | .arr _ _, .undefined => by simp [JVal.beq]
  | .arr _ _, .jnull => by simp [JVal.beq]
  | .arr _ _, .bool _ => by simp [JVal.beq]
  | .arr _ _, .num _ => by simp [JVal.beq]
  | .arr _ _, .str _ => by simp [JVal.beq]
  | .arr _ _, .obj _ => by simp [JVal.beq]

theorem beqElems_iff : ∀ a b : List JVal, beqElems a b = true ↔ a = b
  | [], [] => by simp [beqElems]
  | a :: as, b :: bs => by
      simp [beqElems, JVal.beq_iff a b, beqElems_iff as bs]
  | [], _ :: _ => by simp [beqElems]
  | _ :: _, [] => by simp [beqElems]

theorem beqFields_iff : ∀ a b : List (String × JVal), beqFields a b = true ↔ a = b
  | [], [] => by simp [beqFields]
  | (k, a) :: as, (l, b) :: bs => by
      simp [beqFields, JVal.beq_iff a b, beqFields_iff as bs]
  | [], _ :: _ => by simp [beqFields]
  | _ :: _, [] => by simp [beqFields]

end

instance : DecidableEq JVal := fun a b =>
  decidable_of_iff (JVal.beq a b = true) (JVal.beq_iff a b)

/-- Decimal value of a digit string. -/
def digitsToNat (cs : List Char) : Nat :=
  cs.foldl (fun a c => a * 10 + (c.toNat - 48)) 0

/-- Canonical array-index interpretation of a property key, as JavaScript
arrays use it: the key must be the canonical decimal rendering of a natural
number, nonempty digits without a leading zero except for `0` itself (so
`00`, `+3` or `-1` are ordinary string keys). -/
def keyIndex (s : String) : Option Nat :=
  match s.data with
  | [] => none
  | c :: rest =>
    if (c :: rest).all (·.isDigit) ∧ (c ≠ '0' ∨ rest = []) then some (digitsToNat (c :: rest))
    else none

/-- Property read `v[k]`.  Own fields of objects, index positions and expando
properties of arrays; every other read (on primitives, `null` or
`undefined` receivers) yields `undefined` in this model. -/
def getProp : JVal → String → JVal
  | .obj fs, k => (fs.lookup k).getD .undefined
  | .arr es ps, k =>
    match keyIndex k with
    | some i => es.getD i .undefined
    | none => (ps.lookup k).getD .undefined
  | _, _ => .undefined

/-- Assignment into an ordered field list: the first entry with the given key
is updated in place, otherwise the new field is appended (JavaScript
property-insertion order). -/
def objAssign : List (String × JVal) → String → JVal → List (String × JVal)
  | [], k, v => [(k, v)]
  | (k2, v2) :: t, k, v =>
    if k2 = k then (k2, v) :: t else (k2, v2) :: objAssign t k v

/-- Element assignment `a[i] = v` on an array: in-range indices are updated,
out-of-range indices extend the array with `undefined` holes. -/
def listSet (es : List JVal) (i : Nat) (v : JVal) : List JVal :=
  if i < es.length then es.set i v
  else es ++ List.replicate (i - es.length) .undefined ++ [v]

/-- Property write `v[k] = x`.  Writes to primitives are lost, as for
unboxed values in non-strict JavaScript. -/
def setProp : JVal → String → JVal → JVal
  | .obj fs, k, x => .obj (objAssign fs k x)
  | .arr es ps, k, x =>
    match keyIndex k with
    | some i => .arr (listSet es i x) ps
    | none => .arr es (objAssign ps k x)
  | v, _, _ => v

/-- Value at a path: iterated property read, exactly the parent-descending
loop of `$.modelWalk`. -/
def getPath (s : JVal) (p : List String) : JVal := p.foldl getProp s

/-- Functional update at a path (the effect of mutating `parent[prop]`
through the chain of containers leading to it). -/
def setPath : JVal → List String → JVal → JVal
  | _, [], v => v
  | s, k :: ks, v => setProp s k (setPath (getProp s k) ks v)

/-- Containers are the values whose properties persist: plain objects and arrays. -/
def isContainer : JVal → Bool
  | .obj _ => true
  | .arr _ _ => true
  | _ => false

/-- Global options `$.modelOptions` (the `refAttr` name is abstracted away:
scope-chain references are modelled directly by their attribute values). -/
structure Options where
  createArrays : Bool
  globalContext : String
  deriving Repr, DecidableEq

/-- Default options: `createArrays: true`, `globalContext: '/'`. -/
def modelOptions : Options := ⟨true, "/"⟩

/-- Trimmed decimal-literal test standing in for JavaScript `!isNaN(s)`:
the empty or blank string converts to `0` (not NaN), an optional sign
followed by decimal digits with an optional fractional part is numeric.
Exotic numeric forms (hex, exponents, `Infinity`) are treated as NaN here;
no claim below depends on such a segment. -/
def dropSign : List Char → List Char
  | c :: r => if c = '+' ∨ c = '-' then r else c :: r
  | [] => []

/-- Digit-string body of a decimal literal, optional fractional part included. -/
def numericBody (cs : List Char) : Bool :=
  let ip := cs.takeWhile (·.isDigit)
  let rest := cs.dropWhile (·.isDigit)
  match rest with
  | [] => !ip.isEmpty
  | '.' :: frac => (!ip.isEmpty || !frac.isEmpty) && frac.all (·.isDigit)
  | _ => false

/-- Whitespace as JavaScript string-to-number coercion strips it. -/
def isWhite (c : Char) : Bool :=
  c = ' ' ∨ c = '\t' ∨ c = '\n' ∨ c = '\r'

/-- Both-ends whitespace trim on a character list. -/
def trimChars (cs : List Char) : List Char :=
  ((cs.dropWhile isWhite).reverse.dropWhile isWhite).reverse

/-- JavaScript `isNaN(s)` restricted to decimal literals (see `dropSign`). -/
def jsIsNaN (s : String) : Bool :=
  let t := trimChars s.data
  if t = [] then false else !numericBody (dropSign t)

/-- Container created for an absent non-terminal position:
`isNaN(path[i+1]) || !createArrays ? {} : []` in `modelValue`. -/
def newContainer (opts : Options) (next : String) : JVal :=
  if jsIsNaN next || !opts.createArrays then .obj [] else .arr [] []

/-- The creating walk of `modelValue` (modes get and set): for every
non-terminal position whose current value is `undefined`, a fresh container
chosen by `newContainer` from the following segment is assigned there.
The delete mode never runs this creation (see `delAborts`). -/
def createWalk (opts : Options) : JVal → List String → JVal
  | s, [] => s
  | s, [_] => s
  | s, k :: next :: rest =>
    let child := getProp s k
    let child2 := if child = .undefined then newContainer opts next else child
    setProp s k (createWalk opts child2 (next :: rest))

/-- Reference shapes accepted by `$.modelPath`: `undefined` (returned as is),
an already-parsed path (its `isModelPath` flag set, returned as is), a
string, a plain array of segments, a DOM node represented by its own
optional `ref` attribute together with the `ref` attributes of its
ancestors (closest first), `null` (whose property access throws), and any
other shape (number, plain object, ...) for which the source logs and
returns `undefined`. -/
inductive Ref where
  | undefined
  | nul
  | str (s : String)
  | arr (segs : List String)
  | tagged (p : List String)
  | node (own : Option String) (ancestors : List String)
  | other
  deriving Repr, DecidableEq

/-- Accumulation of ancestor `ref` attributes: each is prepended
(`refs.unshift(attr)`), and an attribute starting with `/` anchors the path
and stops the outward walk (the `throw true` in the source). -/
def accumRefsAnc : List String → List String → List String
  | [], acc => acc
  | a :: rest, acc =>
    if a.data.headD ' ' = '/' then a :: acc else accumRefsAnc rest (a :: acc)

/-- Attribute chain collected for a DOM node: the node itself first, then
its ancestors outward, stopping at the first absolute attribute. -/
def accumRefs : Option String → List String → List String
  | some a, anc => if a.data.headD ' ' = '/' then [a] else accumRefsAnc anc [a]
  | none, anc => accumRefsAnc anc []

/-- JavaScript falsiness of a reference, used by `context || globalContext`.
The `other` shape is treated as truthy (no claim depends on a falsy
non-string context). -/
def refFalsy : Ref → Bool
  | .undefined => true
  | .nul => true
  | .str s => s == ""
  | _ => false

/-- The context actually used: the supplied one if truthy, else the global one. -/
def ctxOrGlobal (opts : Options) : Option Ref → Ref
  | none => .str opts.globalContext
  | some r => if refFalsy r then .str opts.globalContext else r

/-- Splitting on the separator, accumulator-based (JavaScript
`String.prototype.split` with a single-character separator). -/
def splitSlashAux : List Char → List Char → List String
  | [], acc => [String.mk acc.reverse]
  | c :: rest, acc =>
    if c = '/' then String.mk acc.reverse :: splitSlashAux rest []
    else splitSlashAux rest (c :: acc)

/-- JavaScript `s.split('/')`. -/
def splitSlash (s : String) : List String := splitSlashAux s.data []

/-- JavaScript `refs.join('/')` and `this.join('/')`. -/
def joinSlash : List String → String
  | [] => ""
  | [x] => x
  | x :: y :: rest => x ++ "/" ++ joinSlash (y :: rest)

/-- String branch of `$.modelPath`, given the resolution of the effective
context: split on `/`; a leading empty segment marks an absolute path and
is shifted off (the context resolution is discarded); otherwise the parsed
context is concatenated in front, and `undefined.concat` throws when the
context could not be parsed. -/
def modelPathStr (ctxRes : Except Unit (Option (List String))) (s : String) : Except Unit (Option (List String)) :=
  let path := splitSlash s
  if path.headD "" = "" then .ok (some path.tail)
  else
    match ctxRes with
    | .error e => .error e
    | .ok none => .error ()
    | .ok (some cp) => .ok (some (cp ++ path))

/-- `$.modelPath(ref, context)`, fuelled against unbounded recursion through
relative contexts (fuel exhaustion models the stack overflow the source
would run into; it never occurs with an absolute global context).
`Except.error` is a thrown `TypeError`, `.ok none` the undefined sentinel. -/
def modelPathF (opts : Options) : Nat → Ref → Option Ref → Except Unit (Option (List String))
  | 0, _, _ => .error ()
  | fuel + 1, ref, ctx =>
    match ref with
    | .undefined => .ok none
    | .nul => .error ()
    | .tagged p => .ok (some p)
    | .arr segs => .ok (some segs)
    | .other => .ok none
    | .str s => modelPathStr (modelPathF opts fuel (ctxOrGlobal opts ctx) none) s
    | .node own anc =>
      modelPathStr (modelPathF opts fuel (ctxOrGlobal opts ctx) none)
        (joinSlash (accumRefs own anc))

/-- Path resolution with enough fuel for any terminating chain (a relative
reference resolved against a relative context against the global context). -/
def modelPath (opts : Options) (r : Ref) (ctx : Option Ref) : Except Unit (Option (List String)) :=
  modelPathF opts 3 r ctx

/-- Canonical string of a path: `'/'+this.join('/')`. -/
def pathToString (p : List String) : String :=
  "/" ++ joinSlash p

/-- A resolution result fed back in as a reference: `undefined` for the
sentinel, an `isModelPath`-tagged array otherwise. -/
def refOfResult : Option (List String) → Ref
  | none => .undefined
  | some p => .tagged p

/-- An observer in the binding registry: a callback function or a bound
element, each carrying an opaque identity. -/
inductive Obs where
  | cb (id : Nat)
  | el (id : Nat)
  deriving Repr, DecidableEq

/-- The change record passed to observers by `$.modelTrigger`. -/
structure ChangeRec where
  value : JVal
  path : List String
  pathIndex : Nat
  parent : JVal
  deriving Repr, DecidableEq

/-- One observer notification: a callback invocation or an `update` event
triggered on an element. -/
inductive Event where
  | call (o : Obs) (data : ChangeRec)
  | update (o : Obs) (data : ChangeRec)
  deriving Repr, DecidableEq

/-- The binding registry `$.modelBinding`: canonical path string to ordered
observer list. -/
abbrev Registry := List (String × List Obs)

/-- Registry lookup `$.modelBinding[key]`. -/
def lookupReg (reg : Registry) (k : String) : Option (List Obs) :=
  reg.lookup k

/-- Registry entry assignment (update in place or append, like `objAssign`). -/
def regAssign : Registry → String → List Obs → Registry
  | [], k, bs => [(k, bs)]
  | (k2, bs2) :: t, k, bs =>
    if k2 = k then (k2, bs) :: t else (k2, bs2) :: regAssign t k bs

/-- Notification of a single observer: callbacks are always invoked;
an element strictly identical to the originating source is skipped. -/
def dispatchOne (p : List String) (i : Nat) (parent : JVal) (src : Option Obs) (b : Obs) : Option Event :=
  let data : ChangeRec := ⟨getProp parent (p.getD i ""), p, i, parent⟩
  match b with
  | .cb _ => some (.call b data)
  | .el _ => if some b = src then none else some (.update b data)

/-- The notification an observer receives when the source filter passes
(shape of the `some` case of `dispatchOne`). -/
def evFor (p : List String) (i : Nat) (parent : JVal) (b : Obs) : Event :=
  match b with
  | .cb _ => .call b ⟨getProp parent (p.getD i ""), p, i, parent⟩
  | .el _ => .update b ⟨getProp parent (p.getD i ""), p, i, parent⟩

/-- The walk of `$.modelTrigger`: at position `i` the registry entry for the
canonical string of `path.slice(0, i+1)` is looked up and its observers are
notified in order with the current parent, then the walk descends.  The
loop is driven by the unvisited suffix of the path (which equals
`p.drop i`), so the walk ends exactly when `i` reaches `p.length`. -/
def triggerAux (reg : Registry) (p : List String) (src : Option Obs) : Nat → List String → JVal → List Event
  | _, [], _ => []
  | i, _ :: rest, parent =>
    (match lookupReg reg (pathToString (p.take (i + 1))) with
      | none => []
      | some bs => bs.filterMap (dispatchOne p i parent src)) ++
    triggerAux reg p src (i + 1) rest (getProp parent (p.getD i ""))

/-- `$.modelTrigger` on an already-resolved path: the event list produced by
walking the store root along the path. -/
def modelTriggerP (reg : Registry) (s : JVal) (p : List String) (src : Option Obs) : List Event :=
  triggerAux reg p src 0 p s

/-- Result of a mutating model operation: the new store, whether a
notification was dispatched, the dispatched events, and the returned value. -/
structure OpResult where
  store : JVal
  triggered : Bool
  events : List Event
  ret : JVal
  deriving Repr, DecidableEq

/-- `modelValue(path, 0)` (get): the creating walk runs, the value at the
end of the path in the walked store is returned. -/
def modelGetP (opts : Options) (s : JVal) (p : List String) : JVal × JVal :=
  let s1 := createWalk opts s p
  (s1, getPath s1 p)

/-- `modelValue(path, 1, value)` (set): after the creating walk, the value is
assigned and a `set` notification dispatched only when it differs from the
current one (`parent[prop] !== value`); the stored value is returned.  On the
empty path the captured `parent` was never assigned and `parent[prop]`
throws a `TypeError`.  The guard is decided here by structural equality,
which coincides with the strict comparison of the source whenever the
written value is a primitive or the very value just read back from the
store; the theorems stated over `modelSetP` stay inside that domain.  A
write of a freshly allocated container, for which the reference comparison
of the source is always true regardless of structure, is modelled by
`modelSetFreshP` instead. -/
def modelSetP (opts : Options) (reg : Registry) (s : JVal) (p : List String) (v : JVal) (src : Option Obs) : Except Unit OpResult :=
  match p with
  | [] => .error ()
  | _ :: _ =>
    let s1 := createWalk opts s p
    let old := getPath s1 p
    if old = v then .ok ⟨s1, false, [], old⟩
    else
      let s2 := setPath s1 p v
      .ok ⟨s2, true, modelTriggerP reg s2 p src, getPath s2 p⟩

/-- `modelValue(path, 1, value)` (set) for a freshly allocated container
value, as produced by `$.extend({}, ...)` in `$.modelDefaults`: a brand-new
object is reference-identical to nothing already stored, so
`parent[prop] !== value` always holds and the set unconditionally assigns
and dispatches a `set` notification. -/
def modelSetFreshP (opts : Options) (reg : Registry) (s : JVal) (p : List String) (v : JVal) (src : Option Obs) : Except Unit OpResult :=
  match p with
  | [] => .error ()
  | _ :: _ =>
    let s1 := createWalk opts s p
    let s2 := setPath s1 p v
    .ok ⟨s2, true, modelTriggerP reg s2 p src, getPath s2 p⟩

/-- Abort condition of the delete walk: the first non-terminal position whose
current value is `undefined` raises `ReferenceError` (caught, making the
whole delete a no-op); nothing is ever created. -/
def delAborts : JVal → List String → Bool
  | _, [] => false
  | _, [_] => false
  | parent, k :: next :: rest =>
    if getProp parent k = .undefined then true
    else delAborts (getProp parent k) (next :: rest)

/-- Integer coercion of a property key as `Array.prototype.splice` applies
to its start argument (decimal literals truncated toward zero, anything
else 0). -/
def jsToNumberInt (s : String) : Int :=
  let t := trimChars s.data
  if t = [] then 0
  else if numericBody (dropSign t) then
    let n : Nat := digitsToNat ((dropSign t).takeWhile (·.isDigit))
    if t.headD ' ' = '-' then -(n : Int) else (n : Int)
  else 0

/-- Terminal action of delete: `parent.splice(prop, 1)` on arrays (negative
start counted from the end, out-of-range removes nothing), `delete
parent[prop]` on objects, a no-op on primitives. -/
def delParent : JVal → String → JVal
  | .arr es ps, k =>
    let start := jsToNumberInt k
    let idx : Nat := if start < 0 then ((es.length : Int) + start).toNat else start.toNat
    if idx < es.length then .arr (es.eraseIdx idx) ps else .arr es ps
  | .obj fs, k => .obj (fs.eraseP (fun kv => kv.1 == k))
  | v, _ => v

/-- `modelValue(path, 2)` (delete): a walk that aborts silently on a missing
non-terminal value; otherwise the terminal property is removed, a `delete`
notification always fires, and the prior value is returned.  On the empty
path `parent` is `undefined` and `parent.splice` throws a `TypeError`. -/
def modelDelP (opts : Options) (reg : Registry) (s : JVal) (p : List String) (src : Option Obs) : Except Unit OpResult :=
  if delAborts s p then .ok ⟨s, false, [], .undefined⟩
  else
    match p with
    | [] => .error ()
    | _ :: _ =>
      let currval := getPath s p
      let par := getPath s p.dropLast
      let s2 := setPath s p.dropLast (delParent par (p.getLastD ""))
      .ok ⟨s2, true, modelTriggerP reg s2 p src, currval⟩

/-- `$.modelGet(ref, context)`: resolution failure makes the whole walk a
silent no-op returning `undefined`. -/
def modelGetE (opts : Options) (s : JVal) (ref : Ref) (ctx : Option Ref) : Except Unit (JVal × JVal) :=
  match modelPath opts ref ctx with
  | .error e => .error e
  | .ok none => .ok (s, .undefined)
  | .ok (some p) => .ok (modelGetP opts s p)

/-- `$.modelSet(ref, value, context, src)`: on resolution failure the walk
returns `undefined`, leaving `parent` unassigned, and `parent[prop]`
throws a `TypeError`. -/
def modelSetE (opts : Options) (reg : Registry) (s : JVal) (ref : Ref) (v : JVal) (ctx : Option Ref) (src : Option Obs) : Except Unit OpResult :=
  match modelPath opts ref ctx with
  | .error e => .error e
  | .ok none => .error ()
  | .ok (some p) => modelSetP opts reg s p v src

/-- `$.modelSet(ref, value, context, src)` for a freshly allocated container
value (see `modelSetFreshP`); the resolution-failure behaviour is that of
`modelSetE`. -/
def modelSetFreshE (opts : Options) (reg : Registry) (s : JVal) (ref : Ref) (v : JVal) (ctx : Option Ref) (src : Option Obs) : Except Unit OpResult :=
  match modelPath opts ref ctx with
  | .error e => .error e
  | .ok none => .error ()
  | .ok (some p) => modelSetFreshP opts reg s p v src

/-- `$.modelDelete(ref, context)`: on resolution failure `parent` is
`undefined` and reading `parent.splice` throws a `TypeError`. -/
def modelDelE (opts : Options) (reg : Registry) (s : JVal) (ref : Ref) (ctx : Option Ref) (src : Option Obs) : Except Unit OpResult :=
  match modelPath opts ref ctx with
  | .error e => .error e
  | .ok none => .error ()
  | .ok (some p) => modelDelP opts reg s p src

/-- `$.modelBind(ref, obj, context)`: the observer is appended to the entry
keyed by the canonical path string; on resolution failure
`undefined.toString()` throws a `TypeError`. -/
def modelBindE (opts : Options) (reg : Registry) (ref : Ref) (o : Obs) (ctx : Option Ref) : Except Unit Registry :=
  match modelPath opts ref ctx with
  | .error e => .error e
  | .ok none => .error ()
  | .ok (some p) =>
    let key := pathToString p
    .ok (regAssign reg key ((lookupReg reg key).getD [] ++ [o]))

/-- `$.modelUnbind(ref, context)`: the whole entry for the canonical path
string is deleted; on resolution failure `undefined.toString()` throws. -/
def modelUnbindE (opts : Options) (reg : Registry) (ref : Ref) (ctx : Option Ref) : Except Unit Registry :=
  match modelPath opts ref ctx with
  | .error e => .error e
  | .ok none => .error ()
  | .ok (some p) => .ok (reg.eraseP (fun kv => kv.1 == pathToString p))

/-- `$.modelTrigger(ref, context, event, src)`: resolution failure makes the
walk return immediately with no events and no error. -/
def modelTriggerE (opts : Options) (reg : Registry) (s : JVal) (ref : Ref) (ctx : Option Ref) (src : Option Obs) : Except Unit (List Event) :=
  match modelPath opts ref ctx with
  | .error e => .error e
  | .ok none => .ok []
  | .ok (some p) => .ok (modelTriggerP reg s p src)

/-- Enumerable own properties of a value as jQuery `$.extend` copies them:
object fields, array indices (as decimal keys) followed by expandos, nothing
for primitives. -/
def jqProps : JVal → List (String × JVal)
  | .obj fs => fs
  | .arr es ps => (es.enum.map (fun iv => (toString iv.1, iv.2))) ++ ps
  | _ => []

/-- Assignment of each source property onto a target field list, in order. -/
def assignProps (t : List (String × JVal)) (src : List (String × JVal)) : List (String × JVal) :=
  src.foldl (fun acc kv => objAssign acc kv.1 kv.2) t

/-- `$.extend({}, d, cur)` of jQuery 1.1: properties of `d` then of `cur`
are copied onto a fresh object; the copy loop stops at the first `null` or
`undefined` argument. -/
def jqExtend2 (d cur : JVal) : JVal :=
  match d with
  | .undefined => .obj []
  | .jnull => .obj []
  | _ =>
    let t1 := assignProps [] (jqProps d)
    match cur with
    | .undefined => .obj t1
    | .jnull => .obj t1
    | _ => .obj (assignProps t1 (jqProps cur))

/-- `$.modelDefaults(ref, defaults)`:
`$.modelSet(ref, $.extend({}, defaults, $.modelGet(ref)))`.  The `$.extend`
result is a brand-new object on every call, never reference-identical to
the stored value, so the inner set always assigns it and always dispatches
a notification (`modelSetFreshE`), even when the merged contents equal the
stored contents. -/
def modelDefaultsE (opts : Options) (reg : Registry) (s : JVal) (ref : Ref) (d : JVal) : Except Unit OpResult :=
  match modelGetE opts s ref none with
  | .error e => .error e
  | .ok (s1, cur) => modelSetFreshE opts reg s1 ref (jqExtend2 d cur) none none

/-! Basic lemmas about paths, property access and the creating walk. -/

theorem getPath_nil (s : JVal) : getPath s [] = s := rfl

theorem getPath_cons (s : JVal) (k : String) (t : List String) :
    getPath s (k :: t) = getPath (getProp s k) t := rfl

theorem getPath_append_single (s : JVal) (t : List String) (k : String) :
    getPath s (t ++ [k]) = getProp (getPath s t) k := by
  simp [getPath, List.foldl_append]

theorem take_succ_getD (l : List String) (i : Nat) (h : i < l.length) :
    l.take (i + 1) = l.take i ++ [l.getD i ""] := by
  rw [List.take_succ]
  simp [List.getD, List.getElem?_eq_getElem h]

theorem getPath_take_succ (s : JVal) (p : List String) (i : Nat) (h : i < p.length) :
    getPath s (p.take (i + 1)) = getProp (getPath s (p.take i)) (p.getD i "") := by
  rw [take_succ_getD p i h, getPath_append_single]

theorem isContainer_ne_undef {v : JVal} (h : isContainer v = true) : v ≠ .undefined := by
  cases v <;> simp_all [isContainer]

theorem lookup_objAssign_self (t : List (String × JVal)) (k : String) (v : JVal) :
    (objAssign t k v).lookup k = some v := by
  induction t with
  | nil => simp [objAssign, List.lookup]
  | cons kv t ih =>
    obtain ⟨k2, v2⟩ := kv
    by_cases hk : k2 = k
    · subst hk; simp [objAssign, List.lookup]
    · simp [objAssign, hk, List.lookup, beq_eq_false_iff_ne.mpr (Ne.symm hk), ih]

theorem objAssign_of_lookup (t : List (String × JVal)) (k : String) (v : JVal)
    (h : t.lookup k = some v) : objAssign t k v = t := by
  induction t with
  | nil => simp [List.lookup] at h
  | cons kv t ih =>
    obtain ⟨k2, v2⟩ := kv
    by_cases hk : k2 = k
    · subst hk
      simp [List.lookup] at h
      simp [objAssign, h]
    · simp [List.lookup, beq_eq_false_iff_ne.mpr (Ne.symm hk)] at h
      simp [objAssign, hk, ih h]

theorem getD_set_self (es : List JVal) (i : Nat) (v d : JVal) (h : i < es.length) :
    (es.set i v).getD i d = v := by
  simp [List.getD, List.getElem?_set_self, h]

theorem getD_append_repl (es : List JVal) (i : Nat) (v d : JVal) (h : es.length ≤ i) :
    (es ++ List.replicate (i - es.length) JVal.undefined ++ [v]).getD i d = v := by
  induction es generalizing i with
  | nil =>
    simp only [List.nil_append, List.length_nil, Nat.sub_zero]
    induction i with
    | zero => simp
    | succ j ih => simpa [List.replicate_succ] using ih
  | cons e es ih =>
    cases i with
    | zero => simp at h
    | succ j =>
      have hj : es.length ≤ j := Nat.le_of_succ_le_succ h
      have := ih j hj
      simpa only [List.cons_append, List.getD_cons_succ, List.length_cons,
        Nat.succ_sub_succ] using this

theorem listSet_getD (es : List JVal) (i : Nat) (v d : JVal) :
    (listSet es i v).getD i d = v := by
  unfold listSet
  by_cases h : i < es.length
  · rw [if_pos h]; exact getD_set_self es i v d h
  · rw [if_neg h]; exact getD_append_repl es i v d (Nat.le_of_not_lt h)

theorem set_getD_self (es : List JVal) (i : Nat) (d : JVal) (h : i < es.length) :
    es.set i (es.getD i d) = es := by
  induction es generalizing i with
  | nil => simp at h
  | cons e es ih =>
    cases i with
    | zero => simp [List.getD]
    | succ j =>
      simp only [List.getD_cons_succ, List.set_cons_succ]
      exact congrArg (e :: ·) (ih j (Nat.lt_of_succ_lt_succ h))

theorem getProp_setProp_same (s : JVal) (k : String) (v : JVal)
    (h : isContainer s = true) : getProp (setProp s k v) k = v := by
  cases s with
  | obj fs => simp [setProp, getProp, lookup_objAssign_self]
  | arr es ps =>
    cases hk : keyIndex k with
    | some i =>
      show getProp (setProp (JVal.arr es ps) k v) k = v
      simp only [setProp, getProp, hk]
      exact listSet_getD es i v JVal.undefined
    | none => simp [setProp, getProp, hk, lookup_objAssign_self]
  | undefined => simp [isContainer] at h
  | jnull => simp [isContainer] at h
  | bool b => simp [isContainer] at h
  | num n => simp [isContainer] at h
  | str t => simp [isContainer] at h

theorem setProp_getProp_self (s : JVal) (k : String)
    (h : getProp s k ≠ .undefined) : setProp s k (getProp s k) = s := by
  cases s with
  | obj fs =>
    simp only [getProp] at h ⊢
    cases hl : fs.lookup k with
    | none => simp [hl] at h
    | some w => simp [setProp, hl, objAssign_of_lookup fs k w hl]
  | arr es ps =>
    cases hk : keyIndex k with
    | some i =>
      simp only [getProp, hk] at h ⊢
      by_cases hi : i < es.length
      · show setProp (JVal.arr es ps) k (es.getD i JVal.undefined) = JVal.arr es ps
        simp only [setProp, hk, listSet, if_pos hi]
        rw [set_getD_self es i JVal.undefined hi]
      · exfalso
        apply h
        simp [List.getD, List.getElem?_eq_none (Nat.le_of_not_lt hi)]
    | none =>
      simp only [getProp, hk] at h ⊢
      cases hl : ps.lookup k with
      | none => simp [hl] at h
      | some w => simp [setProp, hk, hl, objAssign_of_lookup ps k w hl]
  | undefined => simp [getProp] at h
  | jnull => simp [getProp] at h
  | bool b => simp [getProp] at h
  | num n => simp [getProp] at h
  | str t => simp [getProp] at h

theorem setProp_container (s : JVal) (k : String) (v : JVal)
    (h : isContainer s = true) : isContainer (setProp s k v) = true := by
  cases s with
  | obj fs => simp [setProp, isContainer]
  | arr es ps => cases hk : keyIndex k <;> simp [setProp, hk, isContainer]
  | undefined => simp [isContainer] at h
  | jnull => simp [isContainer] at h
  | bool b => simp [isContainer] at h
  | num n => simp [isContainer] at h
  | str t => simp [isContainer] at h

theorem getPath_setPath (v : JVal) : ∀ (p : List String) (s : JVal),
    (∀ i, i < p.length → isContainer (getPath s (p.take i)) = true) →
    getPath (setPath s p v) p = v
  | [], _, _ => rfl
  | k :: ks, s, h => by
    have hs : isContainer s = true := by simpa [getPath] using h 0 (by simp)
    show getPath (setProp s k (setPath (getProp s k) ks v)) (k :: ks) = v
    rw [getPath_cons, getProp_setProp_same _ _ _ hs]
    refine getPath_setPath v ks (getProp s k) (fun i hi => ?_)
    have := h (i + 1) (by simpa using Nat.succ_lt_succ hi)
    simpa [List.take_succ_cons, getPath_cons] using this

theorem setPath_chain (v : JVal) : ∀ (p : List String) (s : JVal),
    (∀ i, i < p.length → isContainer (getPath s (p.take i)) = true) →
    ∀ j, j < p.length → isContainer (getPath (setPath s p v) (p.take j)) = true
  | [], _, _ => by intro j hj; simp at hj
  | k :: ks, s, h => by
    intro j hj
    have hs : isContainer s = true := by simpa [getPath] using h 0 (by simp)
    cases j with
    | zero => simpa [getPath] using setProp_container s k _ hs
    | succ j =>
      show isContainer (getPath (setProp s k (setPath (getProp s k) ks v)) ((k :: ks).take (j + 1))) = true
      rw [List.take_succ_cons, getPath_cons, getProp_setProp_same _ _ _ hs]
      refine setPath_chain v ks (getProp s k) (fun i hi => ?_) j (by simpa using hj)
      have := h (i + 1) (by simpa using Nat.succ_lt_succ hi)
      simpa [List.take_succ_cons, getPath_cons] using this

theorem createWalk_noop (opts : Options) : ∀ (p : List String) (s : JVal),
    (∀ i, i < p.length - 1 → getPath s (p.take (i + 1)) ≠ JVal.undefined) →
    createWalk opts s p = s
  | [], _, _ => rfl
  | [_], _, _ => rfl
  | k :: next :: rest, s, h => by
    have h0 : getProp s k ≠ JVal.undefined := by
      have := h 0 (by simp)
      simpa [getPath] using this
    show setProp s k (createWalk opts
        (if getProp s k = JVal.undefined then newContainer opts next else getProp s k)
        (next :: rest)) = s
    rw [if_neg h0]
    rw [createWalk_noop opts (next :: rest) (getProp s k) ?_]
    · exact setProp_getProp_self s k h0
    · intro i hi
      have := h (i + 1) (by simp at hi ⊢; omega)
      simpa [List.take_succ_cons, getPath_cons] using this

/-- Positions strictly before the terminal one hold containers after the
creating walk: the well-formedness under which the set/get algebra is
provable (it excludes only stores holding a primitive at a walked
position, where the source would act on a transient wrapper object). -/
abbrev WalkOk (opts : Options) (s : JVal) (p : List String) : Prop :=
  ∀ i, i < p.length → isContainer (getPath (createWalk opts s p) (p.take i)) = true

theorem walkOk_noabsent (opts : Options) (s : JVal) (p : List String)
    (h : WalkOk opts s p) :
    ∀ i, i < p.length - 1 → getPath (createWalk opts s p) (p.take (i + 1)) ≠ JVal.undefined :=
  fun i hi => isContainer_ne_undef (h (i + 1) (by omega))

theorem delAborts_of : ∀ (p : List String) (s : JVal),
    (∃ i, i + 1 < p.length ∧ getPath s (p.take (i + 1)) = JVal.undefined) →
    delAborts s p = true
  | [], _, h => by obtain ⟨i, hi, _⟩ := h; simp at hi
  | [_], _, h => by obtain ⟨i, hi, _⟩ := h; simp at hi
  | k :: next :: rest, s, h => by
    obtain ⟨i, hi, hu⟩ := h
    by_cases h0 : getProp s k = JVal.undefined
    · simp [delAborts, h0]
    · simp only [delAborts, if_neg h0]
      apply delAborts_of (next :: rest) (getProp s k)
      cases i with
      | zero =>
        exfalso; apply h0
        simpa [getPath] using hu
      | succ j =>
        refine ⟨j, by simp at hi ⊢; omega, ?_⟩
        simpa [List.take_succ_cons, getPath_cons] using hu

/-- Events dispatched at the prefix of length `j+1`, with the parent of that
prefix taken from store `s`. -/
def prefixEvents (reg : Registry) (p : List String) (src : Option Obs) (s : JVal) (j : Nat) : List Event :=
  match lookupReg reg (pathToString (p.take (j + 1))) with
  | none => []
  | some bs => bs.filterMap (dispatchOne p j (getPath s (p.take j)) src)

/-- Concatenation of the event lists of a family of positions. -/
def concatMap (f : Nat → List Event) : List Nat → List Event
  | [] => []
  | j :: js => f j ++ concatMap f js

theorem triggerAux_closed (reg : Registry) (p : List String) (src : Option Obs) (s : JVal) :
    ∀ (rest : List String) (i : Nat), rest = p.drop i →
    triggerAux reg p src i rest (getPath s (p.take i)) =
      concatMap (prefixEvents reg p src s) (List.range' i (p.length - i))
  | [], i, h => by
    have hle : p.length ≤ i := by
      have := congrArg List.length h
      simp [List.length_drop] at this
      omega
    simp [triggerAux, Nat.sub_eq_zero_of_le hle, concatMap]
  | seg :: rest, i, h => by
    have hi : i < p.length := by
      have := congrArg List.length h
      simp [List.length_drop] at this
      omega
    have hrest : rest = p.drop (i + 1) := by
      have ht := congrArg List.tail h
      simpa [List.tail_drop] using ht
    simp only [triggerAux]
    rw [← getPath_take_succ s p i hi, triggerAux_closed reg p src s rest (i + 1) hrest]
    have hlen : p.length - i = (p.length - (i + 1)) + 1 := by omega
    rw [hlen]
    simp [List.range', concatMap, prefixEvents]

theorem modelTriggerP_closed (reg : Registry) (s : JVal) (p : List String) (src : Option Obs) :
    modelTriggerP reg s p src = concatMap (prefixEvents reg p src s) (List.range p.length) := by
  have := triggerAux_closed reg p src s p 0 (by simp)
  simpa [modelTriggerP, getPath, List.range_eq_range'] using this

theorem filterMap_dispatchOne_none (p : List String) (i : Nat) (parent : JVal) (bs : List Obs) :
    bs.filterMap (dispatchOne p i parent none) = bs.map (evFor p i parent) := by
  induction bs with
  | nil => rfl
  | cons b bs ih => cases b <;> simp [dispatchOne, evFor, ih]

instance {ε α : Type} [DecidableEq ε] [DecidableEq α] : DecidableEq (Except ε α) := fun a b =>
  match a, b with
  | .ok x, .ok y =>
    if h : x = y then .isTrue (by rw [h]) else .isFalse (fun hh => h (by cases hh; rfl))
  | .error x, .error y =>
    if h : x = y then .isTrue (by rw [h]) else .isFalse (fun hh => h (by cases hh; rfl))
  | .ok _, .error _ => .isFalse (fun hh => by cases hh)
  | .error _, .ok _ => .isFalse (fun hh => by cases hh)

/-- C10: path parsing is idempotent: feeding a resolution result (the
undefined sentinel or an `isModelPath`-tagged path) back into `$.modelPath`
with any second context returns it unchanged; a parsed path is never
re-resolved against a different context. -/
theorem modelPath_idempotent (opts : Options) (r : Ref) (c1 c2 : Option Ref)
    (res : Option (List String)) (h : modelPath opts r c1 = .ok res) :
    modelPath opts (refOfResult res) c2 = .ok res := by
  cases res with
  | none => rfl
  | some p => rfl

/-- Witness for C10 at a concrete absolute string reference. -/
theorem modelPath_idempotent_witness :
    modelPath modelOptions (.str "/a/b") none = .ok (some ["a", "b"]) ∧
    modelPath modelOptions (refOfResult (some ["a", "b"])) (some (.str "/zz")) = .ok (some ["a", "b"]) :=
  ⟨by decide, modelPath_idempotent modelOptions (.str "/a/b") none (some (.str "/zz")) (some ["a", "b"]) (by decide)⟩

/-- C1 counterexample: a reference of unsupported shape (a number) resolves
to the undefined sentinel, yet `$.modelSet` invoked with it does not
complete as a silent no-op: `parent[prop]` with `parent` undefined throws a
`TypeError` (modelled by `.error ()`), contradicting the claim that every
dependent operation returns undefined and raises no exception. -/
theorem modelSet_unresolvable_throws :
    modelSetE modelOptions [] (.obj []) .other (.num 1) none none = .error () := by
  decide

/-- C1 amended: for a reference that resolves to the undefined sentinel,
get and trigger are silent no-ops (undefined result, store, registry and
event stream unchanged, no exception), but set, delete, bind and unbind all
throw a `TypeError`; and a scope chain with no declared segments resolves
to the empty absolute path, not to the sentinel. -/
theorem unresolvable_ref_dependent_ops (opts : Options) (reg : Registry) (s : JVal)
    (v : JVal) (r : Ref) (ctx : Option Ref) (src : Option Obs) (o : Obs)
    (h : modelPath opts r ctx = .ok none) :
    modelGetE opts s r ctx = .ok (s, .undefined) ∧
    modelTriggerE opts reg s r ctx src = .ok [] ∧
    modelSetE opts reg s r v ctx src = .error () ∧
    modelDelE opts reg s r ctx src = .error () ∧
    modelBindE opts reg r o ctx = .error () ∧
    modelUnbindE opts reg r ctx = .error () ∧
    modelPath opts (.node none []) none = .ok (some []) := by
  refine ⟨?_, ?_, ?_, ?_, ?_, ?_, ?_⟩
  · simp [modelGetE, h]
  · simp [modelTriggerE, h]
  · simp [modelSetE, h]
  · simp [modelDelE, h]
  · simp [modelBindE, h]
  · simp [modelUnbindE, h]
  · rfl

/-- Witness for C1 amended at the number-shaped reference. -/
theorem unresolvable_ref_dependent_ops_witness :
    modelPath modelOptions .other none = .ok none ∧
    (modelGetE modelOptions (.obj []) .other none = .ok (.obj [], .undefined) ∧
     modelTriggerE modelOptions [] (.obj []) .other none none = .ok [] ∧
     modelSetE modelOptions [] (.obj []) .other (.num 1) none none = .error () ∧
     modelDelE modelOptions [] (.obj []) .other none none = .error () ∧
     modelBindE modelOptions [] .other (.cb 0) none = .error () ∧
     modelUnbindE modelOptions [] .other none = .error () ∧
     modelPath modelOptions (.node none []) none = .ok (some [])) :=
  ⟨by decide,
   unresolvable_ref_dependent_ops modelOptions [] (.obj []) (.num 1) .other none none (.cb 0) (by decide)⟩

/-- C6 counterexample: an observer bound at the root canonical path `/`
(the canonical string of the empty path) is NOT notified by a mutation of
`/a`: the dispatch walk looks up prefixes of length 1 to n only, never the
empty prefix, so the set dispatches (`triggered = true`) yet produces no
event. -/
theorem root_binding_not_notified :
    pathToString [] = "/" ∧
    modelSetP modelOptions [("/", [Obs.cb 0])] (.obj []) ["a"] (.num 1) none =
      .ok ⟨.obj [("a", .num 1)], true, [], .num 1⟩ := by
  decide

/-- C6 amended: the dispatcher performs one Binding Registry lookup for the
canonical string of the prefix `path.take (i+1)` for every `i` from 0 to
`path.length - 1` — prefix lengths 1 to n, the empty (root) prefix
excluded — each observer list being filtered through the source check with
the change record built from the parent at that prefix. -/
theorem modelTrigger_prefix_lookups (reg : Registry) (s : JVal) (p : List String) (src : Option Obs) :
    modelTriggerP reg s p src = concatMap (prefixEvents reg p src s) (List.range p.length) :=
  modelTriggerP_closed reg s p src

/-- C9: kind of a lazily materialized container is decided by the next path
segment: with `createArrays` enabled, `set('/list/0','x')` on an absent
`/list` creates an array holding one element, so `get('/list')` reports a
sequence of length 1; with the option disabled the same call creates a map
keyed by the string `0`. -/
theorem modelSet_array_vs_map_materialization :
    (modelSetE ⟨true, "/"⟩ [] (.obj []) (.str "/list/0") (.str "x") none none =
      .ok ⟨.obj [("list", .arr [.str "x"] [])], true, [], .str "x"⟩) ∧
    (modelGetE ⟨true, "/"⟩ (.obj [("list", .arr [.str "x"] [])]) (.str "/list") none =
      .ok (.obj [("list", .arr [.str "x"] [])], .arr [.str "x"] [])) ∧
    ([JVal.str "x"].length = 1) ∧
    (modelSetE ⟨false, "/"⟩ [] (.obj []) (.str "/list/0") (.str "x") none none =
      .ok ⟨.obj [("list", .obj [("0", .str "x")])], true, [], .str "x"⟩) ∧
    (modelGetE ⟨false, "/"⟩ (.obj [("list", .obj [("0", .str "x")])]) (.str "/list") none =
      .ok (.obj [("list", .obj [("0", .str "x")])], .obj [("0", .str "x")])) := by
  decide

/-- C7: delete on a path with an absent intermediate value is a silent
no-op: the walk aborts before creating anything, the store is unchanged, no
notification fires, and `undefined` is returned. -/
theorem modelDelete_missing_intermediate_noop (opts : Options) (reg : Registry)
    (s : JVal) (p : List String) (src : Option Obs)
    (h : ∃ i, i + 1 < p.length ∧ getPath s (p.take (i + 1)) = JVal.undefined) :
    modelDelP opts reg s p src = .ok ⟨s, false, [], .undefined⟩ := by
  unfold modelDelP
  rw [if_pos (delAborts_of p s h)]

/-- Witness for C7: deleting `/a/b` in the empty store. -/
theorem modelDelete_missing_intermediate_noop_witness :
    (∃ i, i + 1 < (["a", "b"] : List String).length ∧
      getPath (JVal.obj []) ((["a", "b"] : List String).take (i + 1)) = JVal.undefined) ∧
    modelDelP modelOptions [] (.obj []) ["a", "b"] none = .ok ⟨.obj [], false, [], .undefined⟩ :=
  ⟨⟨0, by decide, by decide⟩,
   modelDelete_missing_intermediate_noop modelOptions [] (.obj []) ["a", "b"] none
     ⟨0, by decide, by decide⟩⟩

/-- C2 counterexample: a get is NOT free of store mutation: `get('/a/b')` on
the empty store materializes an empty map at `/a` (the creating visitor of
`modelValue` runs for mode 0 as well; only deletion is guarded). -/
theorem modelGet_creates_container :
    modelGetE modelOptions (.obj []) (.str "/a/b") none =
      .ok (.obj [("a", .obj [])], .undefined) ∧
    JVal.obj [("a", JVal.obj [])] ≠ JVal.obj [] := by
  decide

/-- C2 amended: a get leaves the store unchanged exactly on paths all of
whose non-terminal positions are present; when a non-terminal position is
absent, get materializes intermediate containers just as set would (see the
counterexample). -/
theorem modelGet_pure_when_intermediates_present (opts : Options) (s : JVal) (p : List String)
    (h : ∀ i, i < p.length - 1 → getPath s (p.take (i + 1)) ≠ JVal.undefined) :
    modelGetP opts s p = (s, getPath s p) := by
  unfold modelGetP
  rw [createWalk_noop opts p s h]

/-- Witness for C2 amended on a two-segment path with its intermediate present. -/
theorem modelGet_pure_when_intermediates_present_witness :
    (∀ i, i < (["a", "b"] : List String).length - 1 →
      getPath (JVal.obj [("a", .obj [("b", .num 3)])]) ((["a", "b"] : List String).take (i + 1)) ≠ JVal.undefined) ∧
    modelGetP modelOptions (.obj [("a", .obj [("b", .num 3)])]) ["a", "b"] =
      (.obj [("a", .obj [("b", .num 3)])], .num 3) :=
  ⟨by decide,
   modelGet_pure_when_intermediates_present modelOptions (.obj [("a", .obj [("b", .num 3)])])
     ["a", "b"] (by decide)⟩

/-- C3 counterexample: the empty string reference is resolvable (it parses
to the empty absolute path), yet `$.modelSet` on it throws a `TypeError`
(`parent[prop]` with `parent` never assigned), so set does not succeed and
return the assigned value for every resolvable path. -/
theorem modelSet_empty_resolvable_path_throws :
    modelPath modelOptions (.str "") none = .ok (some []) ∧
    modelSetE modelOptions [] (.obj []) (.str "") (.num 1) none none = .error () := by
  decide

/-- C3 amended: for every value and every nonempty resolvable path whose
positions before the terminal one hold containers after lazy
materialization, set succeeds, returns the assigned value, and a following
get yields that value (absent intermediate containers having been created
by the walk). -/
theorem modelSet_then_get_roundtrip (opts : Options) (reg : Registry) (s : JVal)
    (p : List String) (v : JVal) (src : Option Obs)
    (hne : p ≠ []) (hok : WalkOk opts s p) :
    ∃ r : OpResult, modelSetP opts reg s p v src = .ok r ∧ r.ret = v ∧
      modelGetP opts r.store p = (r.store, v) := by
  obtain ⟨k, ks, rfl⟩ := List.exists_cons_of_ne_nil hne
  by_cases hv : getPath (createWalk opts s (k :: ks)) (k :: ks) = v
  · refine ⟨⟨createWalk opts s (k :: ks), false, [],
      getPath (createWalk opts s (k :: ks)) (k :: ks)⟩, ?_, hv, ?_⟩
    · simp only [modelSetP]
      rw [if_pos hv]
    · have hnoop : createWalk opts (createWalk opts s (k :: ks)) (k :: ks) =
          createWalk opts s (k :: ks) :=
        createWalk_noop opts (k :: ks) _ (walkOk_noabsent opts s (k :: ks) hok)
      simp only [modelGetP, hnoop]
      rw [hv]
  · have hchain : ∀ i, i < (k :: ks).length →
        isContainer (getPath (setPath (createWalk opts s (k :: ks)) (k :: ks) v) ((k :: ks).take i)) = true :=
      setPath_chain v (k :: ks) (createWalk opts s (k :: ks)) hok
    have hret : getPath (setPath (createWalk opts s (k :: ks)) (k :: ks) v) (k :: ks) = v :=
      getPath_setPath v (k :: ks) (createWalk opts s (k :: ks)) hok
    refine ⟨⟨setPath (createWalk opts s (k :: ks)) (k :: ks) v, true,
      modelTriggerP reg (setPath (createWalk opts s (k :: ks)) (k :: ks) v) (k :: ks) src,
      getPath (setPath (createWalk opts s (k :: ks)) (k :: ks) v) (k :: ks)⟩, ?_, hret, ?_⟩
    · simp only [modelSetP]
      rw [if_neg hv]
    · have hnoop : createWalk opts (setPath (createWalk opts s (k :: ks)) (k :: ks) v) (k :: ks) =
          setPath (createWalk opts s (k :: ks)) (k :: ks) v :=
        createWalk_noop opts (k :: ks) _
          (fun i hi => isContainer_ne_undef (hchain (i + 1) (by omega)))
      simp only [modelGetP, hnoop]
      rw [hret]

/-- Witness for C3 amended: `set('/a/b', 7)` on the empty store. -/
theorem modelSet_then_get_roundtrip_witness :
    ((["a", "b"] : List String) ≠ []) ∧ WalkOk modelOptions (.obj []) ["a", "b"] ∧
    (∃ r : OpResult, modelSetP modelOptions [] (.obj []) ["a", "b"] (.num 7) none = .ok r ∧
      r.ret = .num 7 ∧ modelGetP modelOptions r.store ["a", "b"] = (r.store, .num 7)) :=
  ⟨by decide, by decide,
   modelSet_then_get_roundtrip modelOptions [] (.obj []) ["a", "b"] (.num 7) none
     (by decide) (by decide)⟩

/-- C4 counterexample: when the store already holds the written value, the
sequence `set(p, v); set(p, v)` fires ZERO notifications, not exactly one:
with the store `{a: 1}` both calls to `set('/a', 1)` leave the store
unchanged and dispatch nothing (`triggered = false`), so the claimed count
of exactly one notification is wrong on this input. -/
theorem modelSet_twice_equal_value_zero_notifications :
    modelSetP modelOptions [] (.obj [("a", .num 1)]) ["a"] (.num 1) none =
      .ok ⟨.obj [("a", .num 1)], false, [], .num 1⟩ := by
  decide

/-- C4 amended: when the current value at the path differs from the written
one, `set(p, v); set(p, v)` fires exactly one notification: the first call
assigns and dispatches, the second finds the stored value unchanged,
assigns nothing, leaves the store identical and dispatches nothing; when
the current value already equals the written one, neither call dispatches. -/
theorem modelSet_twice_single_notification (opts : Options) (reg : Registry) (s : JVal)
    (p : List String) (v : JVal) (src : Option Obs)
    (hne : p ≠ []) (hok : WalkOk opts s p)
    (hch : getPath (createWalk opts s p) p ≠ v) :
    ∃ r1 r2 : OpResult,
      modelSetP opts reg s p v src = .ok r1 ∧ r1.triggered = true ∧
      modelSetP opts reg r1.store p v src = .ok r2 ∧ r2.triggered = false ∧
      r2.store = r1.store ∧ r2.events = [] := by
  obtain ⟨k, ks, rfl⟩ := List.exists_cons_of_ne_nil hne
  have hchain : ∀ i, i < (k :: ks).length →
      isContainer (getPath (setPath (createWalk opts s (k :: ks)) (k :: ks) v) ((k :: ks).take i)) = true :=
    setPath_chain v (k :: ks) (createWalk opts s (k :: ks)) hok
  have hret : getPath (setPath (createWalk opts s (k :: ks)) (k :: ks) v) (k :: ks) = v :=
    getPath_setPath v (k :: ks) (createWalk opts s (k :: ks)) hok
  have hnoop : createWalk opts (setPath (createWalk opts s (k :: ks)) (k :: ks) v) (k :: ks) =
      setPath (createWalk opts s (k :: ks)) (k :: ks) v :=
    createWalk_noop opts (k :: ks) _
      (fun i hi => isContainer_ne_undef (hchain (i + 1) (by omega)))
  refine ⟨⟨setPath (createWalk opts s (k :: ks)) (k :: ks) v, true,
    modelTriggerP reg (setPath (createWalk opts s (k :: ks)) (k :: ks) v) (k :: ks) src,
    getPath (setPath (createWalk opts s (k :: ks)) (k :: ks) v) (k :: ks)⟩,
    ⟨setPath (createWalk opts s (k :: ks)) (k :: ks) v, false, [], v⟩,
    ?_, rfl, ?_, rfl, rfl, rfl⟩
  · simp only [modelSetP]
    rw [if_neg hch]
  · simp only [modelSetP, hnoop]
    rw [if_pos hret, hret]

/-- Witness for C4 amended: two writes of 1 to `/a` in the empty store. -/
theorem modelSet_twice_single_notification_witness :
    ((["a"] : List String) ≠ []) ∧ WalkOk modelOptions (.obj []) ["a"] ∧
    getPath (createWalk modelOptions (.obj []) ["a"]) ["a"] ≠ JVal.num 1 ∧
    (∃ r1 r2 : OpResult,
      modelSetP modelOptions [] (.obj []) ["a"] (.num 1) none = .ok r1 ∧ r1.triggered = true ∧
      modelSetP modelOptions [] r1.store ["a"] (.num 1) none = .ok r2 ∧ r2.triggered = false ∧
      r2.store = r1.store ∧ r2.events = []) :=
  ⟨by decide, by decide, by decide,
   modelSet_twice_single_notification modelOptions [] (.obj []) ["a"] (.num 1) none
     (by decide) (by decide) (by decide)⟩

/-- C5: hierarchical notification: with observers bound at `/a` and at
`/a/b` (and none at `/a/b/c`), a set of `/a/b/c` originating from no source
observer notifies every observer at every matching prefix, dispatching the
prefixes root to leaf (the whole `/a` list before the whole `/a/b` list),
within one prefix in registration order, each observer receiving the
change record built from the post-mutation parent at its prefix
(value, path, pathIndex, parent). -/
theorem modelSet_hierarchical_notification (opts : Options) (reg : Registry) (s : JVal)
    (v : JVal) (bs1 bs2 : List Obs)
    (h1 : lookupReg reg "/a" = some bs1)
    (h2 : lookupReg reg "/a/b" = some bs2)
    (h3 : lookupReg reg "/a/b/c" = none)
    (hok : WalkOk opts s ["a", "b", "c"])
    (hch : getPath (createWalk opts s ["a", "b", "c"]) ["a", "b", "c"] ≠ v) :
    modelSetP opts reg s ["a", "b", "c"] v none =
      .ok ⟨setPath (createWalk opts s ["a", "b", "c"]) ["a", "b", "c"] v, true,
        bs1.map (evFor ["a", "b", "c"] 0
          (setPath (createWalk opts s ["a", "b", "c"]) ["a", "b", "c"] v)) ++
        bs2.map (evFor ["a", "b", "c"] 1
          (getProp (setPath (createWalk opts s ["a", "b", "c"]) ["a", "b", "c"] v) "a")),
        v⟩ := by
  have hret : getPath (setPath (createWalk opts s ["a", "b", "c"]) ["a", "b", "c"] v) ["a", "b", "c"] = v :=
    getPath_setPath v ["a", "b", "c"] (createWalk opts s ["a", "b", "c"]) hok
  simp only [modelSetP]
  rw [if_neg hch, hret, modelTriggerP_closed]
  have e0 : prefixEvents reg ["a", "b", "c"] none
      (setPath (createWalk opts s ["a", "b", "c"]) ["a", "b", "c"] v) 0 =
      bs1.map (evFor ["a", "b", "c"] 0 (setPath (createWalk opts s ["a", "b", "c"]) ["a", "b", "c"] v)) := by
    simp only [prefixEvents]
    rw [show pathToString ((["a", "b", "c"] : List String).take 1) = "/a" from rfl, h1]
    exact filterMap_dispatchOne_none _ _ _ _
  have e1 : prefixEvents reg ["a", "b", "c"] none
      (setPath (createWalk opts s ["a", "b", "c"]) ["a", "b", "c"] v) 1 =
      bs2.map (evFor ["a", "b", "c"] 1
        (getProp (setPath (createWalk opts s ["a", "b", "c"]) ["a", "b", "c"] v) "a")) := by
    simp only [prefixEvents]
    rw [show pathToString ((["a", "b", "c"] : List String).take 2) = "/a/b" from rfl, h2]
    exact filterMap_dispatchOne_none _ _ _ _
  have e2 : prefixEvents reg ["a", "b", "c"] none
      (setPath (createWalk opts s ["a", "b", "c"]) ["a", "b", "c"] v) 2 = [] := by
    simp only [prefixEvents]
    rw [show pathToString ((["a", "b", "c"] : List String).take 3) = "/a/b/c" from rfl, h3]
  rw [show List.range (["a", "b", "c"] : List String).length = [0, 1, 2] from rfl]
  simp [concatMap, e0, e1, e2]

/-- Witness for C5: a callback at `/a`, a callback and an element at `/a/b`,
writing 1 to `/a/b/c` in the empty store. -/
theorem modelSet_hierarchical_notification_witness :
    lookupReg [("/a", [Obs.cb 0]), ("/a/b", [Obs.cb 1, Obs.el 2])] "/a" = some [Obs.cb 0] ∧
    lookupReg [("/a", [Obs.cb 0]), ("/a/b", [Obs.cb 1, Obs.el 2])] "/a/b" = some [Obs.cb 1, Obs.el 2] ∧
    lookupReg [("/a", [Obs.cb 0]), ("/a/b", [Obs.cb 1, Obs.el 2])] "/a/b/c" = none ∧
    WalkOk modelOptions (.obj []) ["a", "b", "c"] ∧
    getPath (createWalk modelOptions (.obj []) ["a", "b", "c"]) ["a", "b", "c"] ≠ JVal.num 1 ∧
    modelSetP modelOptions [("/a", [Obs.cb 0]), ("/a/b", [Obs.cb 1, Obs.el 2])] (.obj [])
        ["a", "b", "c"] (.num 1) none =
      .ok ⟨setPath (createWalk modelOptions (.obj []) ["a", "b", "c"]) ["a", "b", "c"] (.num 1), true,
        [Obs.cb 0].map (evFor ["a", "b", "c"] 0
          (setPath (createWalk modelOptions (.obj []) ["a", "b", "c"]) ["a", "b", "c"] (.num 1))) ++
        [Obs.cb 1, Obs.el 2].map (evFor ["a", "b", "c"] 1
          (getProp (setPath (createWalk modelOptions (.obj []) ["a", "b", "c"]) ["a", "b", "c"] (.num 1)) "a")),
        .num 1⟩ :=
  ⟨by decide, by decide, by decide, by decide, by decide,
   modelSet_hierarchical_notification modelOptions
     [("/a", [Obs.cb 0]), ("/a/b", [Obs.cb 1, Obs.el 2])] (.obj []) (.num 1)
     [Obs.cb 0] [Obs.cb 1, Obs.el 2]
     (by decide) (by decide) (by decide) (by decide) (by decide)⟩

theorem mem_keys_objAssign {t : List (String × JVal)} {k x : String} {v : JVal}
    (h : x ∈ (objAssign t k v).map Prod.fst) : x = k ∨ x ∈ t.map Prod.fst := by
  induction t with
  | nil => simpa [objAssign] using h
  | cons kv t ih =>
    obtain ⟨k2, v2⟩ := kv
    by_cases hk : k2 = k
    · subst hk
      rw [show objAssign ((k2, v2) :: t) k2 v = (k2, v) :: t from by simp [objAssign]] at h
      simp only [List.map_cons, List.mem_cons] at h
      simp only [List.map_cons, List.mem_cons]
      tauto
    · simp only [objAssign, if_neg hk, List.map_cons, List.mem_cons] at h
      simp only [List.map_cons, List.mem_cons]
      rcases h with e | hmem
      · exact Or.inr (Or.inl e)
      · rcases ih hmem with e | e
        · exact Or.inl e
        · exact Or.inr (Or.inr e)

theorem nodup_keys_objAssign {t : List (String × JVal)} (k : String) (v : JVal)
    (h : (t.map Prod.fst).Nodup) : ((objAssign t k v).map Prod.fst).Nodup := by
  induction t with
  | nil => simp [objAssign]
  | cons kv t ih =>
    obtain ⟨k2, v2⟩ := kv
    by_cases hk : k2 = k
    · subst hk
      simpa [objAssign] using h
    · simp only [List.map_cons, List.nodup_cons] at h
      simp only [objAssign, if_neg hk, List.map_cons, List.nodup_cons]
      refine ⟨?_, ih h.2⟩
      intro hmem
      rcases mem_keys_objAssign hmem with e | e
      · exact hk e
      · exact h.1 e

theorem nodup_keys_assignProps (src : List (String × JVal)) :
    ∀ t, (t.map Prod.fst).Nodup → ((assignProps t src).map Prod.fst).Nodup := by
  induction src with
  | nil => intro t h; simpa [assignProps] using h
  | cons kv src ih =>
    intro t h
    exact ih (objAssign t kv.1 kv.2) (nodup_keys_objAssign kv.1 kv.2 h)

theorem lookup_of_mem_nodup {t : List (String × JVal)} {k : String} {v : JVal}
    (hn : (t.map Prod.fst).Nodup) (hm : (k, v) ∈ t) : t.lookup k = some v := by
  induction t with
  | nil => simp at hm
  | cons kv t ih =>
    obtain ⟨k2, v2⟩ := kv
    simp only [List.map_cons, List.nodup_cons] at hn
    rcases List.mem_cons.mp hm with h | h
    · injection h with h1 h2
      subst h1
      subst h2
      simp [List.lookup]
    · have hkne : k2 ≠ k := by
        intro e
        subst e
        exact hn.1 (List.mem_map_of_mem Prod.fst h)
      simp [List.lookup, beq_eq_false_iff_ne.mpr (Ne.symm hkne), ih hn.2 h]

theorem assignProps_of_lookup : ∀ (src t : List (String × JVal)),
    (∀ kv ∈ src, t.lookup kv.1 = some kv.2) → assignProps t src = t := by
  intro src
  induction src with
  | nil => intro t _; rfl
  | cons kv src ih =>
    intro t h
    have h1 : objAssign t kv.1 kv.2 = t :=
      objAssign_of_lookup t kv.1 kv.2 (h kv (List.mem_cons_self kv src))
    show assignProps (objAssign t kv.1 kv.2) src = t
    rw [h1]
    exact ih t (fun kv2 hm => h kv2 (List.mem_cons_of_mem kv hm))

theorem assignProps_self (t : List (String × JVal)) (hn : (t.map Prod.fst).Nodup) :
    assignProps t t = t :=
  assignProps_of_lookup t t (fun kv hm => by
    obtain ⟨k, v⟩ := kv
    exact lookup_of_mem_nodup hn hm)

theorem jqExtend2_idem (d : JVal) :
    jqExtend2 d (jqExtend2 d JVal.undefined) = jqExtend2 d JVal.undefined := by
  have key : ∀ src : List (String × JVal),
      assignProps (assignProps [] src) (assignProps [] src) = assignProps [] src :=
    fun src => assignProps_self _ (nodup_keys_assignProps src [] (by simp))
  cases d <;> simp [jqExtend2, jqProps, key]

theorem modelSetFreshP_single_empty (m : JVal) :
    modelSetFreshP modelOptions [] (.obj []) ["x"] m none =
      .ok ⟨.obj [("x", m)], true, [], m⟩ := rfl

theorem modelSetFreshP_single_repl (m0 m : JVal) :
    modelSetFreshP modelOptions [] (.obj [("x", m0)]) ["x"] m none =
      .ok ⟨.obj [("x", m)], true, [], m⟩ := rfl

theorem modelDefaultsE_fresh (d : JVal) :
    modelDefaultsE modelOptions [] (.obj []) (.str "/x") d =
      .ok ⟨.obj [("x", jqExtend2 d .undefined)], true, [], jqExtend2 d .undefined⟩ := by
  show modelSetFreshP modelOptions [] (.obj []) ["x"] (jqExtend2 d JVal.undefined) none = _
  exact modelSetFreshP_single_empty _

theorem modelDefaultsE_repeat (d : JVal) :
    modelDefaultsE modelOptions [] (.obj [("x", jqExtend2 d .undefined)]) (.str "/x") d =
      .ok ⟨.obj [("x", jqExtend2 d .undefined)], true, [], jqExtend2 d .undefined⟩ := by
  show modelSetFreshP modelOptions [] (.obj [("x", jqExtend2 d JVal.undefined)]) ["x"]
      (jqExtend2 d (jqExtend2 d JVal.undefined)) none = _
  rw [jqExtend2_idem d]
  exact modelSetFreshP_single_repl _ _

/-- C8 counterexample: `$.modelDefaults` merges SHALLOWLY, not recursively:
with `/x = {a: {b: 1}}`, `defaults('/x', {a: {c: 2}})` leaves the store
contents unchanged — the existing top-level value at `a` wins wholesale and
the nested default key `c` is NOT filled in, so `get('/x/a/c')` is
`undefined` where a deep merge would give 2.  (The call still assigns the
fresh merge result and runs the dispatcher — `triggered = true` — since the
`$.extend` result is never reference-identical to the stored value.) -/
theorem modelDefaults_nested_default_dropped :
    modelDefaultsE modelOptions [] (.obj [("x", .obj [("a", .obj [("b", .num 1)])])]) (.str "/x")
        (.obj [("a", .obj [("c", .num 2)])]) =
      .ok ⟨.obj [("x", .obj [("a", .obj [("b", .num 1)])])], true, [],
        .obj [("a", .obj [("b", .num 1)])]⟩ ∧
    getPath (JVal.obj [("x", .obj [("a", .obj [("b", .num 1)])])]) ["x", "a", "c"] = .undefined ∧
    JVal.undefined ≠ JVal.num 2 := by
  decide

/-- C8 amended: `defaults(p, d)` reads the current value at `p`, merges `d`
underneath it SHALLOWLY (existing top-level keys win wholesale, defaults
fill only absent top-level keys; nested structured defaults are not merged
recursively, see the counterexample) and writes the merged result back via
set.  Because the merge result is a fresh object, never reference-identical
to the stored value, every application — repeats included — assigns it and
dispatches a notification.  In particular `defaults('/x',{k:v1});
defaults('/x',{k:v2})` leaves `get('/x/k') = v1`, and applying the same
defaults twice leaves the same store contents as applying them once (the
repeat application still notifies: with a callback bound at `/x` it
receives an event, as the last clause shows concretely). -/
theorem modelDefaults_shallow_top_level :
    (∀ (k : String) (v1 v2 : JVal),
      modelDefaultsE modelOptions [] (.obj []) (.str "/x") (.obj [(k, v1)]) =
        .ok ⟨.obj [("x", .obj [(k, v1)])], true, [], .obj [(k, v1)]⟩ ∧
      modelDefaultsE modelOptions [] (.obj [("x", .obj [(k, v1)])]) (.str "/x") (.obj [(k, v2)]) =
        .ok ⟨.obj [("x", .obj [(k, v1)])], true, [], .obj [(k, v1)]⟩ ∧
      getPath (JVal.obj [("x", .obj [(k, v1)])]) ["x", k] = v1) ∧
    (∀ d : JVal,
      modelDefaultsE modelOptions [] (.obj []) (.str "/x") d =
        .ok ⟨.obj [("x", jqExtend2 d .undefined)], true, [], jqExtend2 d .undefined⟩ ∧
      modelDefaultsE modelOptions [] (.obj [("x", jqExtend2 d .undefined)]) (.str "/x") d =
        .ok ⟨.obj [("x", jqExtend2 d .undefined)], true, [], jqExtend2 d .undefined⟩) ∧
    (modelDefaultsE modelOptions [("/x", [Obs.cb 0])] (.obj [("x", .obj [("k", .num 1)])])
        (.str "/x") (.obj [("k", .num 1)]) =
      .ok ⟨.obj [("x", .obj [("k", .num 1)])], true,
        [.call (.cb 0) ⟨.obj [("k", .num 1)], ["x"], 0, .obj [("x", .obj [("k", .num 1)])]⟩],
        .obj [("k", .num 1)]⟩) := by
  refine ⟨?_, ?_, ?_⟩
  · intro k v1 v2
    have hmerge : jqExtend2 (JVal.obj [(k, v2)]) (JVal.obj [(k, v1)]) = JVal.obj [(k, v1)] := by
      simp [jqExtend2, jqProps, assignProps, objAssign]
    refine ⟨?_, ?_, ?_⟩
    · exact modelDefaultsE_fresh (.obj [(k, v1)])
    · show modelSetFreshP modelOptions [] (.obj [("x", .obj [(k, v1)])]) ["x"]
        (jqExtend2 (JVal.obj [(k, v2)]) (JVal.obj [(k, v1)])) none = _
      rw [hmerge]
      exact modelSetFreshP_single_repl (.obj [(k, v1)]) (.obj [(k, v1)])
    · show getProp (JVal.obj [(k, v1)]) k = v1
      simp [getProp, List.lookup]
  · intro d
    exact ⟨modelDefaultsE_fresh d, modelDefaultsE_repeat d⟩
  · decide
